import Mathlib

/-!
Verification of the content-based plant-image matching pipeline of
`ai-service/identify_plant.py` (smartfarm-tz).

Shallow embedding conventions:
* Python `str` values are modelled as `List Char` (`Str`); literals are written
  via `String.data`.
* Python floats are idealised as exact arithmetic: feature-vector entries,
  histogram counts and edge density are `ℚ` (all arise from counts and
  divisions); cosine similarity, which needs square roots, lives in `ℝ`.
* `cv2`/`PIL` library calls that the repository does not define (image
  decoding, colour-space conversion, Canny) are modelled by the fields of
  `PImage`/`ImgContent`: a preprocessed image carries its RGB float channels
  together with the library-derived grayscale, hue, saturation and edge
  views.  All theorems quantify over these views, so nothing is assumed
  about the library beyond documented value ranges (e.g. an HSV saturation
  byte is `< 256`).
* Exceptions are modelled with `Option`: `ImgContent.pix = none` means
  `cv2.imread`/preprocessing raises for that file.
* The on-disk state touched by `identify_plant`/`learn_plant` (static
  dataset tree, learned directory, pickled feature cache, learning log) is
  gathered in `Store`; both operations return their result dict together
  with the updated store.
-/

namespace SmartFarm

/-- Python `str`, modelled as a list of characters. -/
abbrev Str := List Char

/-- A feature vector: a list of (exact) rational numbers. -/
abbrev Feat := List ℚ

/-! ## Python string helpers used by `learn_plant` / `identify_plant` -/

/-- `s.strip()`: remove leading and trailing whitespace. -/
def pyStrip (s : Str) : Str :=
  ((s.dropWhile Char.isWhitespace).reverse.dropWhile Char.isWhitespace).reverse

/-- `not plant_name or not plant_name.strip()`: the label is rejected iff it
is empty or all-whitespace. -/
def pyBlank (s : Str) : Bool :=
  s.all Char.isWhitespace

/-- `plant_name.strip().lower().replace(' ', '_')` (line 270 of the source). -/
def normalizeLabel (s : Str) : Str :=
  ((pyStrip s).map Char.toLower).map (fun c => if c = ' ' then '_' else c)

/-- `learned_file.stem.split('_')[0]` (line 208): the part of a stem before
its first underscore (the whole stem when it has none). -/
def learnedNameOf (s : Str) : Str :=
  s.takeWhile (fun c => c != '_')

/-! ## SimilarityScorer (`calculate_similarity`, lines 130-147) -/

/-- `np.dot` of two vectors (zipped componentwise product, summed). -/
def dotQ (a b : Feat) : ℚ :=
  (List.zipWith (fun x y => x * y) a b).sum

/-- The squared L2 norm `np.dot(a, a)`. -/
def normSqQ (a : Feat) : ℚ := dotQ a a

/-- `np.linalg.norm`, as a real number. -/
noncomputable def l2norm (a : Feat) : ℝ :=
  Real.sqrt (normSqQ a : ℝ)

/-- `calculate_similarity(features1, features2)`: cosine similarity with an
explicit zero-norm guard (lines 136-144). -/
noncomputable def calculate_similarity (a b : Feat) : ℝ :=
  if l2norm a = 0 ∨ l2norm b = 0 then 0
  else (dotQ a b : ℝ) / (l2norm a * l2norm b)

/-! ## FeatureExtractor (`extract_features`, lines 77-128)

A `PImage` models the value `preprocess_image` returns (a H×W float RGB
image with entries in `[0,1]`) together with the views `extract_features`
derives from it through OpenCV library calls: the `uint8` grayscale image
(`cv2.cvtColor(..., COLOR_RGB2GRAY)`), the hue and saturation channels of
the `uint8` HSV image, and the Canny edge mask (`cv2.Canny(gray, 50, 150)`,
recorded as the boolean `edges > 0`).  Channels are total functions on
`ℕ × ℕ`; only indices `< H`/`< W` are ever consulted.  The only library
fact the proofs use is that a saturation byte is `< 256`. -/

structure PImage where
  H : ℕ
  W : ℕ
  r : ℕ → ℕ → ℚ
  g : ℕ → ℕ → ℚ
  b : ℕ → ℕ → ℚ
  gray : ℕ → ℕ → ℕ
  hue : ℕ → ℕ → ℕ
  sat : ℕ → ℕ → ℕ
  sat_lt : ∀ i j, i < H → j < W → sat i j < 256
  edge : ℕ → ℕ → Bool

/-- Row-major traversal of one channel of a H×W image. -/
def pixelsOf (H W : ℕ) (f : ℕ → ℕ → α) : List α :=
  (List.range H).flatMap fun i => (List.range W).map fun j => f i j

/-- `cv2.calcHist([vals], [0], None, [bins], [lo, hi])`: uniform histogram
with `bins` bins over `[lo, hi)` (OpenCV upper range bounds are
exclusive); returns the per-bin counts. -/
def calcHist (vals : List ℚ) (bins : ℕ) (lo hi : ℚ) : Feat :=
  (List.range bins).map fun (k : ℕ) =>
    ((vals.countP fun v =>
        decide (lo + (k : ℚ) * ((hi - lo) / (bins : ℚ)) ≤ v) &&
        decide (v < lo + ((k : ℚ) + 1) * ((hi - lo) / (bins : ℚ)))) : ℚ)

/-- `np.sum(edges > 0) / (edges.shape[0] * edges.shape[1])` (line 95). -/
def edgeDensity (img : PImage) : ℚ :=
  ((pixelsOf img.H img.W img.edge).countP id : ℚ) / (img.H * img.W)

/-- The 8-bit local binary pattern of lines 101-110, with the neighbour
contributions written exactly in source order. -/
def lbpPattern (g : ℕ → ℕ → ℕ) (i j : ℕ) : ℕ :=
  (if g (i-1) (j-1) > g i j then 1 else 0) * 1
  + (if g (i-1) j > g i j then 1 else 0) * 2
  + (if g (i-1) (j+1) > g i j then 1 else 0) * 4
  + (if g i (j+1) > g i j then 1 else 0) * 8
  + (if g (i+1) (j+1) > g i j then 1 else 0) * 16
  + (if g (i+1) j > g i j then 1 else 0) * 32
  + (if g (i+1) (j-1) > g i j then 1 else 0) * 64
  + (if g i (j-1) > g i j then 1 else 0) * 128

/-- The texture feature list: LBP values of the interior pixels, traversed
as `for i in range(1, H-1): for j in range(1, W-1)` (lines 98-111). -/
def texturePatterns (img : PImage) : List ℕ :=
  (List.range' 1 (img.H - 2)).flatMap fun i =>
    (List.range' 1 (img.W - 2)).map fun j => lbpPattern img.gray i j

/-- `np.histogram(texture_features, bins=16, range=(0, 255))[0]`: 16 uniform
bins over `[0, 255]`; every bin is right-open except the last, which
includes 255.  Bin `k` has edges `255k/16` and `255(k+1)/16`; for natural
pattern values the conditions are the integer comparisons below. -/
def npHistogram16 (vals : List ℕ) : Feat :=
  (List.range 16).map fun k =>
    ((vals.countP fun p =>
        decide (255 * k ≤ 16 * p) &&
        (decide (16 * p < 255 * (k + 1)) || (decide (k = 15) && decide (p ≤ 255)))) : ℚ)

/-- `image[:,:,0/1/2]` as flat value lists, and the two HSV channels. -/
def redVals (img : PImage) : List ℚ := pixelsOf img.H img.W img.r

def greenVals (img : PImage) : List ℚ := pixelsOf img.H img.W img.g

def blueVals (img : PImage) : List ℚ := pixelsOf img.H img.W img.b

def hueVals (img : PImage) : List ℚ :=
  (pixelsOf img.H img.W img.hue).map (Nat.cast : ℕ → ℚ)

def satVals (img : PImage) : List ℚ :=
  (pixelsOf img.H img.W img.sat).map (Nat.cast : ℕ → ℚ)

/-- `extract_features` (lines 77-126): the concatenation
`[hist_r, hist_g, hist_b, hist_h, hist_s, [edge_density], texture_hist]`. -/
def extract_features (img : PImage) : Feat :=
  calcHist (redVals img) 32 0 1
  ++ calcHist (greenVals img) 32 0 1
  ++ calcHist (blueVals img) 32 0 1
  ++ calcHist (hueVals img) 32 0 180
  ++ calcHist (satVals img) 32 0 256
  ++ [edgeDensity img]
  ++ npHistogram16 (texturePatterns img)

/-! ## ReferenceStore: on-disk state of `identify_plant` / `learn_plant`

An `ImgContent` models the byte content of one image file.  `pix` is what
running `preprocess_image` on those bytes yields (`none` = the cv2
read/preprocess raises); `pilValid` is whether `PIL.Image.open(...).verify()`
accepts the bytes; `hash8` models `hashlib.md5(bytes).hexdigest()[:8]`.
All three are functions of the content alone, so byte-identical files (e.g.
the copy `shutil.copy2` makes in `learn_plant`) share them.  `pix_size`
records that `preprocess_image` resizes to `CONFIG['image_size']`
= (224, 224). -/

structure ImgContent where
  pix : Option PImage
  pilValid : Bool
  hash8 : Str
  pix_size : ∀ p, pix = some p → p.H = 224 ∧ p.W = 224

/-- `extract_features(preprocess_image(path))` as a function of the file's
content; `none` when preprocessing raises. -/
def featOf (c : ImgContent) : Option Feat :=
  c.pix.map extract_features

/-- One `*.jpg` file, with its filename stem. -/
structure RefFile where
  stem : Str
  content : ImgContent

/-- One label subdirectory of the static dataset (`dataset_path/<label>/*.jpg`). -/
structure LabelDir where
  label : Str
  files : List RefFile

/-- One record of `learning_log.json` (lines 301-306). -/
structure LogEntry where
  timestamp : Str
  plant_name : Str
  image_path : Str
  original_path : Str

/-- The mutable on-disk state: the static dataset tree, the learned-plants
directory, the pickled features cache (a Python dict, i.e. an association
list with distinct keys), and the learning log.  A missing dataset or
learned directory is modelled by the empty list (the source skips the
corresponding loop when the path does not exist). -/
structure Store where
  staticDirs : List LabelDir
  learned : List RefFile
  cache : List (Str × Feat)
  log : List LogEntry

/-- Reading `cached_features[name]` (first entry wins, as in a dict). -/
def cacheLookup (k : Str) : List (Str × Feat) → Option Feat
  | [] => none
  | e :: rest => if e.1 = k then some e.2 else cacheLookup k rest

/-- `cached_features[name] = feats`: overwrite the existing entry for the
key, or append a new one — Python dict assignment. -/
def cacheInsert (k : Str) (v : Feat) : List (Str × Feat) → List (Str × Feat)
  | [] => [(k, v)]
  | e :: rest => if e.1 = k then (k, v) :: rest else e :: cacheInsert k v rest

/-- The ad hoc JSON result dict both operations return.  A key that the
source does not put into a given dict is `none` / `false` here.  The
`message` strings, which interpolate floats, are not modelled. -/
structure PyResult where
  success : Bool
  plant_name : Option Str := none
  confidence : Option ℝ := none
  error : Option Str := none
  needs_learning : Bool := false
  stored_path : Option Str := none

/-- `round(x, 3)` idealised over ℝ (Mathlib's `round` is round-half-up
where Python uses round-half-even; no claim distinguishes them, as the
two differ only on exact multiples of 1/2000). -/
noncomputable def round3 (x : ℝ) : ℝ :=
  ((round (x * 1000) : ℤ) : ℝ) / 1000

/-- `CONFIG['similarity_threshold']` (line 24). -/
noncomputable def similarityThreshold : ℝ := 0.7

/-! ### The scan of `identify_plant` (lines 182-223)

The running best is a pair `(max_similarity, best_match_name)`, initialised
to `(0, None)`; a reference replaces it only on a strictly greater
similarity.  A reference file whose preprocessing raises is skipped
(`except ... continue`). -/

/-- One iteration of the static-dataset inner loop (lines 190-201). -/
noncomputable def scanFile (q : Feat) (lbl : Str) (acc : ℝ × Option Str)
    (f : RefFile) : ℝ × Option Str :=
  match featOf f.content with
  | none => acc
  | some ft =>
      if acc.1 < calculate_similarity q ft then (calculate_similarity q ft, some lbl)
      else acc

/-- The `for image_file in label_dir.glob('*.jpg')` loop. -/
noncomputable def scanFiles (q : Feat) (lbl : Str) :
    List RefFile → ℝ × Option Str → ℝ × Option Str
  | [], acc => acc
  | f :: rest, acc => scanFiles q lbl rest (scanFile q lbl acc f)

/-- The `for label_dir in dataset_path.iterdir()` loop (lines 188-201). -/
noncomputable def scanStatic (q : Feat) :
    List LabelDir → ℝ × Option Str → ℝ × Option Str
  | [], acc => acc
  | d :: rest, acc => scanStatic q rest (scanFiles q d.label d.files acc)

/-- One iteration of the learned-images loop (lines 206-223): resolve the
descriptor through the cache (filling it on a miss), then compare.  A
miss whose recomputation raises is skipped without touching the cache. -/
noncomputable def scanLearnedStep (q : Feat)
    (st : List (Str × Feat) × ℝ × Option Str) (f : RefFile) :
    List (Str × Feat) × ℝ × Option Str :=
  let name := learnedNameOf f.stem
  match cacheLookup name st.1 with
  | some ft =>
      if st.2.1 < calculate_similarity q ft then (st.1, calculate_similarity q ft, some name)
      else st
  | none =>
      match featOf f.content with
      | none => st
      | some ft =>
          if st.2.1 < calculate_similarity q ft then
            (cacheInsert name ft st.1, calculate_similarity q ft, some name)
          else (cacheInsert name ft st.1, st.2)

/-- The `for learned_file in learned_path.glob('*.jpg')` loop. -/
noncomputable def scanLearned (q : Feat) :
    List RefFile → List (Str × Feat) × ℝ × Option Str →
    List (Str × Feat) × ℝ × Option Str
  | [], st => st
  | f :: rest, st => scanLearned q rest (scanLearnedStep q st f)

/-- `identify_plant(image_path)` (lines 149-249).  `pathExists` models
`os.path.exists(image_path)`; the query file's bytes are `c`.  Returns the
result dict and the updated store (the features cache is rewritten after
every completed scan, lines 226-228). -/
noncomputable def identify_plant (store : Store) (pathExists : Bool)
    (path : Str) (c : ImgContent) : PyResult × Store :=
  if pathExists = false then
    ({ success := false, error := some ("Image file not found: ".data ++ path) }, store)
  else if c.pilValid = false then
    ({ success := false, error := some ("Invalid image file: ".data) }, store)
  else
    match c.pix with
    | none =>
        ({ success := false, error := some ("Plant identification failed: ".data) }, store)
    | some pimg =>
        let q := extract_features pimg
        let res := scanLearned q store.learned (store.cache, scanStatic q store.staticDirs (0, none))
        let store' := { store with cache := res.1 }
        if similarityThreshold < res.2.1 then
          ({ success := true, plant_name := res.2.2, confidence := some (round3 res.2.1) }, store')
        else
          ({ success := false,
             error := some ("I do not know this plant. Please help me learn by providing its name.".data),
             needs_learning := true,
             confidence := some (if 0 < res.2.1 then round3 res.2.1 else 0) }, store')

/-- `learn_plant(image_path, plant_name)` (lines 251-331).  `ts` models the
`datetime.now()` timestamp string.  The image is first copied into the
learned directory (so a later extraction failure still leaves the copy on
disk, line 283 before line 286); on success the cache entry for the
normalized name is overwritten and a log entry is appended. -/
def learn_plant (store : Store) (pathExists : Bool) (path : Str)
    (c : ImgContent) (plantName : Str) (ts : Str) : PyResult × Store :=
  if pathExists = false then
    ({ success := false, error := some ("Image file not found: ".data ++ path) }, store)
  else if pyBlank plantName then
    ({ success := false, error := some ("Plant name cannot be empty".data) }, store)
  else
    let n := normalizeLabel plantName
    let stem := n ++ ['_'] ++ ts ++ ['_'] ++ c.hash8
    let stored := "ai-service/learned_plants/".data ++ stem ++ ".jpg".data
    let store1 := { store with learned := store.learned ++ [⟨stem, c⟩] }
    match featOf c with
    | none =>
        ({ success := false, error := some ("Learning failed: ".data) }, store1)
    | some ft =>
        ({ success := true, plant_name := some n, stored_path := some stored },
         { store1 with
            cache := cacheInsert n ft store1.cache,
            log := store1.log ++ [⟨ts, n, stored, path⟩] })

/-- Number of entries of the cache under a given key. -/
def keyCount (k : Str) (m : List (Str × Feat)) : ℕ :=
  m.countP fun e => decide (e.1 = k)

/-- Invariant: the best score stays nonnegative, and whenever a name has
been selected the best score is strictly positive. -/
def PosInv (x : ℝ × Option Str) : Prop :=
  0 ≤ x.1 ∧ (∀ l, x.2 = some l → 0 < x.1)

/-- The invariant carried through the learned-files loop for the
learn-then-identify theorem: the normalized label resolves to the query's
own descriptor, any other cache entry scores `< 1`, and the running best can
only reach 1 by selecting the normalized label. -/
def ConvInv (q : Feat) (n : Str) (qf : Feat)
    (st : List (Str × Feat) × ℝ × Option Str) : Prop :=
  cacheLookup n st.1 = some qf ∧
  (∀ e ∈ st.1, e.1 ≠ n → calculate_similarity q e.2 < 1) ∧
  st.2.1 ≤ 1 ∧
  (st.2.1 = 1 → st.2.2 = some n)

/-- The scan both loops of `identify_plant` perform, as one value:
resulting cache, best score, best name. -/
noncomputable def identifyScan (store : Store) (q : Feat) :
    List (Str × Feat) × ℝ × Option Str :=
  scanLearned q store.learned (store.cache, scanStatic q store.staticDirs (0, none))

/-- The neighbour order C5 describes, read off the spec wording: the 8
neighbours of an interior pixel taken clockwise starting at the top-left
neighbour, indexed by `k = 0..7` (image coordinates: row `i` grows
downward, column `j` grows rightward). -/
def clockwiseNbr (i j : ℕ) : ℕ → ℕ × ℕ
  | 0 => (i - 1, j - 1)
  | 1 => (i - 1, j)
  | 2 => (i - 1, j + 1)
  | 3 => (i, j + 1)
  | 4 => (i + 1, j + 1)
  | 5 => (i + 1, j)
  | 6 => (i + 1, j - 1)
  | 7 => (i, j - 1)
  | _ => (i, j)

/-! ## Concrete objects used in witnesses and counterexamples -/

/-- A black 224×224 preprocessed image (what `preprocess_image` yields on a
uniform black JPEG). -/
def pimg0 : PImage where
  H := 224
  W := 224
  r := fun _ _ => 0
  g := fun _ _ => 0
  b := fun _ _ => 0
  gray := fun _ _ => 0
  hue := fun _ _ => 0
  sat := fun _ _ => 0
  sat_lt := fun _ _ _ _ => by norm_num
  edge := fun _ _ => false

/-- A well-formed image file: PIL-valid, preprocesses to `pimg0`. -/
def cGood : ImgContent where
  pix := some pimg0
  pilValid := true
  hash8 := "deadbeef".data
  pix_size := fun p hp => by
    injection hp with h
    subst h
    exact ⟨rfl, rfl⟩

/-- A corrupt image file: `preprocess_image` raises on it. -/
def cBad : ImgContent where
  pix := none
  pilValid := false
  hash8 := "00000000".data
  pix_size := fun _ hp => Option.noConfusion hp

/-- The descriptor of the black test image. -/
def q0 : Feat := extract_features pimg0

def emptyStore : Store := ⟨[], [], [], []⟩

def badFile : RefFile := ⟨"bad".data, cBad⟩

/-- A store whose static dataset already contains, under the label
`"other"`, an image byte-identical to the query image. -/
def aliasStore : Store := ⟨[⟨"other".data, [⟨"x".data, cGood⟩]⟩], [], [], []⟩

/-- The state `aliasStore` reaches after `learn_plant(cGood, "foo")` at
timestamp `20250101`. -/
def aliasStore1 : Store :=
  ⟨aliasStore.staticDirs, [⟨"foo_20250101_deadbeef".data, cGood⟩],
   [("foo".data, q0)],
   [⟨"20250101".data, "foo".data,
     "ai-service/learned_plants/foo_20250101_deadbeef.jpg".data, "orig.jpg".data⟩]⟩

lemma normSqQ_nil : normSqQ [] = 0 := rfl

lemma normSqQ_cons (x : ℚ) (a : Feat) :
    normSqQ (x :: a) = x * x + normSqQ a := by
  simp [normSqQ, dotQ]

lemma normSqQ_nonneg (a : Feat) : 0 ≤ normSqQ a := by
  induction a with
  | nil => simp [normSqQ_nil]
  | cons x t ih =>
      rw [normSqQ_cons]
      nlinarith [mul_self_nonneg x]

/-- Discrete Cauchy–Schwarz for the list dot product. -/
lemma dotQ_sq_le (a b : Feat) :
    dotQ a b * dotQ a b ≤ normSqQ a * normSqQ b := by
  induction a generalizing b with
  | nil =>
      simp [dotQ, normSqQ_nil]
  | cons x ta ih =>
      cases b with
      | nil =>
          simp only [dotQ, List.zipWith_nil_right, List.sum_nil]
          nlinarith [normSqQ_nonneg (x :: ta), normSqQ_nonneg ([] : Feat)]
      | cons y tb =>
          have hd : dotQ (x :: ta) (y :: tb) = x * y + dotQ ta tb := by
            simp [dotQ]
          have hIH := ih tb
          have hp := normSqQ_nonneg ta
          have hq := normSqQ_nonneg tb
          rw [hd, normSqQ_cons, normSqQ_cons]
          set d := dotQ ta tb with hdd
          set p := normSqQ ta with hpp
          set q := normSqQ tb with hqq
          rcases eq_or_lt_of_le hp with hp0 | hp0
          · -- p = 0 forces d = 0
            have hd0 : d * d ≤ 0 := by rw [← hp0] at hIH; simpa using hIH
            have hdz : d = 0 := by nlinarith [mul_self_nonneg d]
            rw [hdz, ← hp0]
            nlinarith [mul_nonneg (mul_self_nonneg x) hq]
          · -- p > 0: multiply the goal by p
            have key : p * ((x * x + p) * (y * y + q) - (x * y + d) * (x * y + d))
                = (x * d - p * y) * (x * d - p * y) + (x * x + p) * (p * q - d * d) := by
              ring
            have h1 : 0 ≤ (x * d - p * y) * (x * d - p * y) := mul_self_nonneg _
            have h2 : 0 ≤ (x * x + p) * (p * q - d * d) := by
              have := mul_self_nonneg x
              nlinarith
            nlinarith

lemma l2norm_nonneg (a : Feat) : 0 ≤ l2norm a := Real.sqrt_nonneg _

lemma l2norm_eq_zero_iff (a : Feat) : l2norm a = 0 ↔ normSqQ a = 0 := by
  unfold l2norm
  rw [Real.sqrt_eq_zero']
  constructor
  · intro h
    have h2 : (0 : ℝ) ≤ (normSqQ a : ℝ) := by exact_mod_cast normSqQ_nonneg a
    exact_mod_cast le_antisymm h h2
  · intro h
    rw [h]
    norm_num

lemma sq_l2norm (a : Feat) : l2norm a * l2norm a = (normSqQ a : ℝ) := by
  unfold l2norm
  exact Real.mul_self_sqrt (by exact_mod_cast normSqQ_nonneg a)

/-- |dot a b| is bounded by the product of the norms (real form of
Cauchy–Schwarz). -/
lemma abs_dotQ_le (a b : Feat) :
    |(dotQ a b : ℝ)| ≤ l2norm a * l2norm b := by
  have h := dotQ_sq_le a b
  have hre : (dotQ a b : ℝ) * (dotQ a b : ℝ) ≤ (normSqQ a : ℝ) * (normSqQ b : ℝ) := by
    exact_mod_cast h
  have hs : Real.sqrt ((dotQ a b : ℝ) * (dotQ a b : ℝ))
      ≤ Real.sqrt ((normSqQ a : ℝ) * (normSqQ b : ℝ)) := Real.sqrt_le_sqrt hre
  rwa [Real.sqrt_mul_self_eq_abs (dotQ a b : ℝ),
    Real.sqrt_mul (by exact_mod_cast normSqQ_nonneg a)] at hs

lemma mem_normSqQ_pos {x : ℚ} {a : Feat} (hx : x ∈ a) (hx0 : x ≠ 0) :
    0 < normSqQ a := by
  induction a with
  | nil => cases hx
  | cons y t ih =>
      rw [normSqQ_cons]
      rcases List.mem_cons.mp hx with h | h
      · subst h
        nlinarith [normSqQ_nonneg t, mul_self_nonneg x, (mul_self_pos).mpr hx0]
      · nlinarith [ih h, mul_self_nonneg y]

/-- Self-similarity of a vector with nonzero norm is exactly 1. -/
lemma calculate_similarity_self {a : Feat} (h : normSqQ a ≠ 0) :
    calculate_similarity a a = 1 := by
  have hcond : ¬(l2norm a = 0 ∨ l2norm a = 0) := by
    rw [l2norm_eq_zero_iff]
    tauto
  unfold calculate_similarity
  rw [if_neg hcond, sq_l2norm]
  have hcast : (dotQ a a : ℝ) = (normSqQ a : ℝ) := rfl
  rw [hcast, div_self (by exact_mod_cast h)]

/-- The similarity of any two vectors lies in `[-1, 1]`. -/
lemma calculate_similarity_mem_Icc (a b : Feat) :
    -1 ≤ calculate_similarity a b ∧ calculate_similarity a b ≤ 1 := by
  unfold calculate_similarity
  split
  · norm_num
  · rename_i hnz
    push_neg at hnz
    have ha : 0 < l2norm a := lt_of_le_of_ne (l2norm_nonneg a) (Ne.symm hnz.1)
    have hb : 0 < l2norm b := lt_of_le_of_ne (l2norm_nonneg b) (Ne.symm hnz.2)
    have hprod : 0 < l2norm a * l2norm b := mul_pos ha hb
    have habs := abs_dotQ_le a b
    rw [abs_le] at habs
    constructor
    · rw [le_div_iff₀ hprod]
      linarith [habs.1]
    · rw [div_le_one hprod]
      exact habs.2

lemma calculate_similarity_le_one (a b : Feat) : calculate_similarity a b ≤ 1 :=
  (calculate_similarity_mem_Icc a b).2

lemma calcHist_length (vals : List ℚ) (bins : ℕ) (lo hi : ℚ) :
    (calcHist vals bins lo hi).length = bins := by
  unfold calcHist
  rw [List.length_map, List.length_range]

lemma npHistogram16_length (vals : List ℕ) :
    (npHistogram16 vals).length = 16 := by
  unfold npHistogram16
  rw [List.length_map, List.length_range]

lemma calcHist_nonneg (vals : List ℚ) (bins : ℕ) (lo hi : ℚ) :
    ∀ x ∈ calcHist vals bins lo hi, 0 ≤ x := by
  intro x hx
  simp only [calcHist, List.mem_map] at hx
  obtain ⟨k, _, hk⟩ := hx
  rw [← hk]
  positivity

/-! ## Helper lemmas -/

lemma cacheLookup_cacheInsert_self (k : Str) (v : Feat) (m : List (Str × Feat)) :
    cacheLookup k (cacheInsert k v m) = some v := by
  induction m with
  | nil => simp [cacheInsert, cacheLookup]
  | cons e rest ih =>
      by_cases he : e.1 = k
      · simp [cacheInsert, he, cacheLookup]
      · simp [cacheInsert, he, cacheLookup, ih]

lemma cacheLookup_cacheInsert_ne {k' k : Str} (h : k' ≠ k) (v : Feat)
    (m : List (Str × Feat)) :
    cacheLookup k' (cacheInsert k v m) = cacheLookup k' m := by
  have h2 : ¬(k = k') := fun hh => h hh.symm
  induction m with
  | nil => simp [cacheInsert, cacheLookup, h2]
  | cons e rest ih =>
      by_cases he : e.1 = k
      · simp [cacheInsert, cacheLookup, he, h2]
      · by_cases he2 : e.1 = k'
        · simp [cacheInsert, cacheLookup, he, he2, h, h2]
        · simp [cacheInsert, cacheLookup, he, he2, h, h2, ih]

lemma mem_cacheInsert {e : Str × Feat} {k : Str} {v : Feat}
    {m : List (Str × Feat)} (h : e ∈ cacheInsert k v m) :
    e = (k, v) ∨ e ∈ m := by
  induction m with
  | nil => simpa [cacheInsert] using h
  | cons e' rest ih =>
      by_cases he : e'.1 = k
      · rw [cacheInsert, if_pos he] at h
        rcases List.mem_cons.mp h with h | h
        · exact Or.inl h
        · exact Or.inr (List.mem_cons_of_mem _ h)
      · rw [cacheInsert, if_neg he] at h
        rcases List.mem_cons.mp h with h | h
        · exact Or.inr (h ▸ List.mem_cons_self _ _)
        · rcases ih h with h | h
          · exact Or.inl h
          · exact Or.inr (List.mem_cons_of_mem _ h)

lemma cacheLookup_mem {k : Str} {v : Feat} {m : List (Str × Feat)}
    (h : cacheLookup k m = some v) : (k, v) ∈ m := by
  induction m with
  | nil => simp [cacheLookup] at h
  | cons e rest ih =>
      obtain ⟨a, b⟩ := e
      by_cases he : a = k
      · simp [cacheLookup, he] at h
        rw [← he, ← h]
        exact List.mem_cons_self _ _
      · simp [cacheLookup, he] at h
        exact List.mem_cons_of_mem _ (ih h)

lemma keyCount_cons (k : Str) (e : Str × Feat) (rest : List (Str × Feat)) :
    keyCount k (e :: rest) = keyCount k rest + (if e.1 = k then 1 else 0) := by
  simp [keyCount, List.countP_cons]

lemma keyCount_le_one_of_nodup {k : Str} {m : List (Str × Feat)}
    (h : (m.map Prod.fst).Nodup) : keyCount k m ≤ 1 := by
  induction m with
  | nil => simp [keyCount]
  | cons e rest ih =>
      rw [List.map_cons, List.nodup_cons] at h
      rw [keyCount_cons]
      by_cases he : e.1 = k
      · have hz : keyCount k rest = 0 := by
          simp only [keyCount, List.countP_eq_zero]
          intro a ha
          simp only [decide_eq_true_eq]
          intro hak
          exact h.1 (by
            rw [he, ← hak]
            exact List.mem_map_of_mem Prod.fst ha)
        rw [hz, if_pos he]
      · rw [if_neg he]
        have := ih h.2
        omega

lemma keyCount_cacheInsert (k : Str) (v : Feat) (m : List (Str × Feat))
    (h : keyCount k m ≤ 1) : keyCount k (cacheInsert k v m) = 1 := by
  induction m with
  | nil => simp [cacheInsert, keyCount, List.countP_cons]
  | cons e rest ih =>
      by_cases he : e.1 = k
      · rw [cacheInsert, if_pos he]
        rw [keyCount_cons] at h ⊢
        rw [if_pos he] at h
        rw [if_pos (show ((k, v) : Str × Feat).1 = k from rfl)]
        omega
      · rw [cacheInsert, if_neg he]
        rw [keyCount_cons] at h ⊢
        rw [if_neg he] at h ⊢
        have := ih (by omega)
        omega

lemma nodup_keys_cacheInsert (k : Str) (v : Feat) (m : List (Str × Feat))
    (h : (m.map Prod.fst).Nodup) :
    (((cacheInsert k v m).map Prod.fst)).Nodup := by
  induction m with
  | nil => simp [cacheInsert]
  | cons e rest ih =>
      rw [List.map_cons, List.nodup_cons] at h
      by_cases he : e.1 = k
      · rw [cacheInsert, if_pos he, List.map_cons, List.nodup_cons]
        exact ⟨by rw [← he]; exact h.1, h.2⟩
      · rw [cacheInsert, if_neg he, List.map_cons, List.nodup_cons]
        constructor
        · intro hmem
          rw [List.mem_map] at hmem
          obtain ⟨a, ha, hfst⟩ := hmem
          rcases mem_cacheInsert ha with rfl | ha'
          · exact he hfst.symm
          · apply h.1
            rw [← hfst]
            exact List.mem_map_of_mem Prod.fst ha'
        · exact ih h.2

/-! ### Stem lemmas -/

lemma takeWhile_underscore_append (a rest : Str) :
    (a ++ '_' :: rest).takeWhile (fun c => c != '_') =
      a.takeWhile (fun c => c != '_') := by
  induction a with
  | nil => simp
  | cons x t ih =>
      by_cases hx : x = '_'
      · subst hx
        simp [List.takeWhile_cons]
      · simp [List.takeWhile_cons, hx, ih]

lemma takeWhile_underscore_eq_self {a : Str} (h : '_' ∉ a) :
    a.takeWhile (fun c => c != '_') = a := by
  induction a with
  | nil => rfl
  | cons x t ih =>
      have hx : x ≠ '_' := fun e => h (e ▸ List.mem_cons_self _ _)
      rw [List.takeWhile_cons, if_pos (by simpa using hx)]
      rw [ih (fun m => h (List.mem_cons_of_mem _ m))]

lemma takeWhile_underscore_ne {a : Str} (h : '_' ∈ a) :
    a.takeWhile (fun c => c != '_') ≠ a := by
  intro he
  rw [← he] at h
  have := List.mem_takeWhile_imp h
  simp at this

/-- The name `identify_plant` derives for a learned file stored by
`learn_plant`: everything of the normalized label before its first
underscore (the timestamp and hash are cut away together with anything
after an underscore inside the label itself). -/
lemma learnedNameOf_stored_stem (n ts h8 : Str) :
    learnedNameOf (n ++ ['_'] ++ ts ++ ['_'] ++ h8) =
      n.takeWhile (fun c => c != '_') := by
  unfold learnedNameOf
  have : n ++ ['_'] ++ ts ++ ['_'] ++ h8 = n ++ '_' :: (ts ++ ['_'] ++ h8) := by
    simp
  rw [this, takeWhile_underscore_append]

/-! ### Scan lemmas -/

lemma scanFile_none {f : RefFile} (q : Feat) (lbl : Str) (acc : ℝ × Option Str)
    (hf : featOf f.content = none) : scanFile q lbl acc f = acc := by
  simp [scanFile, hf]

lemma scanFile_some_lt {f : RefFile} {ft : Feat} (q : Feat) (lbl : Str)
    {acc : ℝ × Option Str} (hf : featOf f.content = some ft)
    (hlt : acc.1 < calculate_similarity q ft) :
    scanFile q lbl acc f = (calculate_similarity q ft, some lbl) := by
  simp [scanFile, hf, hlt]

lemma scanFile_some_ge {f : RefFile} {ft : Feat} (q : Feat) (lbl : Str)
    {acc : ℝ × Option Str} (hf : featOf f.content = some ft)
    (hlt : ¬acc.1 < calculate_similarity q ft) : scanFile q lbl acc f = acc := by
  simp [scanFile, hf, hlt]

lemma scanLearnedStep_hit_lt {f : RefFile} {ft : Feat} (q : Feat)
    {st : List (Str × Feat) × ℝ × Option Str}
    (hc : cacheLookup (learnedNameOf f.stem) st.1 = some ft)
    (hlt : st.2.1 < calculate_similarity q ft) :
    scanLearnedStep q st f = (st.1, calculate_similarity q ft, some (learnedNameOf f.stem)) := by
  simp [scanLearnedStep, hc, hlt]

lemma scanLearnedStep_hit_ge {f : RefFile} {ft : Feat} (q : Feat)
    {st : List (Str × Feat) × ℝ × Option Str}
    (hc : cacheLookup (learnedNameOf f.stem) st.1 = some ft)
    (hlt : ¬st.2.1 < calculate_similarity q ft) :
    scanLearnedStep q st f = st := by
  simp [scanLearnedStep, hc, hlt]

lemma scanLearnedStep_miss_none {f : RefFile} (q : Feat)
    {st : List (Str × Feat) × ℝ × Option Str}
    (hc : cacheLookup (learnedNameOf f.stem) st.1 = none)
    (hf : featOf f.content = none) :
    scanLearnedStep q st f = st := by
  simp [scanLearnedStep, hc, hf]

lemma scanLearnedStep_miss_lt {f : RefFile} {ft : Feat} (q : Feat)
    {st : List (Str × Feat) × ℝ × Option Str}
    (hc : cacheLookup (learnedNameOf f.stem) st.1 = none)
    (hf : featOf f.content = some ft)
    (hlt : st.2.1 < calculate_similarity q ft) :
    scanLearnedStep q st f =
      (cacheInsert (learnedNameOf f.stem) ft st.1, calculate_similarity q ft,
        some (learnedNameOf f.stem)) := by
  simp [scanLearnedStep, hc, hf, hlt]

lemma scanLearnedStep_miss_ge {f : RefFile} {ft : Feat} (q : Feat)
    {st : List (Str × Feat) × ℝ × Option Str}
    (hc : cacheLookup (learnedNameOf f.stem) st.1 = none)
    (hf : featOf f.content = some ft)
    (hlt : ¬st.2.1 < calculate_similarity q ft) :
    scanLearnedStep q st f = (cacheInsert (learnedNameOf f.stem) ft st.1, st.2) := by
  simp [scanLearnedStep, hc, hf, hlt]

lemma scanFile_fst_le (q : Feat) (lbl : Str) (acc : ℝ × Option Str) (f : RefFile) :
    acc.1 ≤ (scanFile q lbl acc f).1 := by
  rcases hf : featOf f.content with _ | ft
  · rw [scanFile_none q lbl acc hf]
  · by_cases hlt : acc.1 < calculate_similarity q ft
    · rw [scanFile_some_lt q lbl hf hlt]
      exact le_of_lt hlt
    · rw [scanFile_some_ge q lbl hf hlt]

lemma scanFiles_fst_le (q : Feat) (lbl : Str) (fs : List RefFile)
    (acc : ℝ × Option Str) : acc.1 ≤ (scanFiles q lbl fs acc).1 := by
  induction fs generalizing acc with
  | nil => exact le_refl _
  | cons f rest ih =>
      exact le_trans (scanFile_fst_le q lbl acc f) (ih _)

lemma scanStatic_fst_le (q : Feat) (ds : List LabelDir) (acc : ℝ × Option Str) :
    acc.1 ≤ (scanStatic q ds acc).1 := by
  induction ds generalizing acc with
  | nil => exact le_refl _
  | cons d rest ih =>
      exact le_trans (scanFiles_fst_le q d.label d.files acc) (ih _)

lemma scanLearnedStep_fst_le (q : Feat) (st : List (Str × Feat) × ℝ × Option Str)
    (f : RefFile) : st.2.1 ≤ (scanLearnedStep q st f).2.1 := by
  rcases hc : cacheLookup (learnedNameOf f.stem) st.1 with _ | ft
  · rcases hf : featOf f.content with _ | ft
    · rw [scanLearnedStep_miss_none q hc hf]
    · by_cases hlt : st.2.1 < calculate_similarity q ft
      · rw [scanLearnedStep_miss_lt q hc hf hlt]
        exact le_of_lt hlt
      · rw [scanLearnedStep_miss_ge q hc hf hlt]
  · by_cases hlt : st.2.1 < calculate_similarity q ft
    · rw [scanLearnedStep_hit_lt q hc hlt]
      exact le_of_lt hlt
    · rw [scanLearnedStep_hit_ge q hc hlt]

lemma scanLearned_fst_le (q : Feat) (fs : List RefFile)
    (st : List (Str × Feat) × ℝ × Option Str) :
    st.2.1 ≤ (scanLearned q fs st).2.1 := by
  induction fs generalizing st with
  | nil => exact le_refl _
  | cons f rest ih =>
      exact le_trans (scanLearnedStep_fst_le q st f) (ih _)

/-- If a scan over files ends with no best-match name, it never updated the
running pair at all. -/
lemma scanFile_eq_of_none (q : Feat) (lbl : Str) (acc : ℝ × Option Str)
    (f : RefFile) (h : (scanFile q lbl acc f).2 = none) :
    scanFile q lbl acc f = acc := by
  rcases hf : featOf f.content with _ | ft
  · exact scanFile_none q lbl acc hf
  · by_cases hlt : acc.1 < calculate_similarity q ft
    · rw [scanFile_some_lt q lbl hf hlt] at h
      simp at h
    · exact scanFile_some_ge q lbl hf hlt

lemma scanFiles_eq_of_none (q : Feat) (lbl : Str) (fs : List RefFile)
    (acc : ℝ × Option Str) (h : (scanFiles q lbl fs acc).2 = none) :
    scanFiles q lbl fs acc = acc := by
  induction fs generalizing acc with
  | nil => rfl
  | cons f rest ih =>
      rw [scanFiles] at h ⊢
      have hstep := ih (scanFile q lbl acc f) h
      rw [hstep] at h ⊢
      exact scanFile_eq_of_none q lbl acc f h

lemma scanStatic_eq_of_none (q : Feat) (ds : List LabelDir)
    (acc : ℝ × Option Str) (h : (scanStatic q ds acc).2 = none) :
    scanStatic q ds acc = acc := by
  induction ds generalizing acc with
  | nil => rfl
  | cons d rest ih =>
      have hstep := ih (scanFiles q d.label d.files acc) h
      rw [scanStatic, hstep] at h ⊢
      rw [scanFiles_eq_of_none q d.label d.files acc h]

lemma scanLearnedStep_snd_eq_of_none (q : Feat)
    (st : List (Str × Feat) × ℝ × Option Str) (f : RefFile)
    (h : (scanLearnedStep q st f).2.2 = none) :
    (scanLearnedStep q st f).2 = st.2 := by
  rcases hc : cacheLookup (learnedNameOf f.stem) st.1 with _ | ft
  · rcases hf : featOf f.content with _ | ft
    · rw [scanLearnedStep_miss_none q hc hf]
    · by_cases hlt : st.2.1 < calculate_similarity q ft
      · rw [scanLearnedStep_miss_lt q hc hf hlt] at h
        simp at h
      · rw [scanLearnedStep_miss_ge q hc hf hlt]
  · by_cases hlt : st.2.1 < calculate_similarity q ft
    · rw [scanLearnedStep_hit_lt q hc hlt] at h
      simp at h
    · rw [scanLearnedStep_hit_ge q hc hlt]

lemma scanLearned_snd_eq_of_none (q : Feat) (fs : List RefFile)
    (st : List (Str × Feat) × ℝ × Option Str)
    (h : (scanLearned q fs st).2.2 = none) :
    (scanLearned q fs st).2 = st.2 := by
  induction fs generalizing st with
  | nil => rfl
  | cons f rest ih =>
      rw [scanLearned] at h ⊢
      rw [ih _ h]
      exact scanLearnedStep_snd_eq_of_none q st f (by rw [← ih _ h]; exact h)

lemma scanFile_posInv {q : Feat} {lbl : Str} {acc : ℝ × Option Str}
    (h : PosInv acc) (f : RefFile) : PosInv (scanFile q lbl acc f) := by
  rcases hf : featOf f.content with _ | ft
  · rw [scanFile_none q lbl acc hf]
    exact h
  · by_cases hlt : acc.1 < calculate_similarity q ft
    · rw [scanFile_some_lt q lbl hf hlt]
      exact ⟨le_of_lt (lt_of_le_of_lt h.1 hlt), fun l _ => lt_of_le_of_lt h.1 hlt⟩
    · rw [scanFile_some_ge q lbl hf hlt]
      exact h

lemma scanFiles_posInv {q : Feat} {lbl : Str} {acc : ℝ × Option Str}
    (h : PosInv acc) (fs : List RefFile) : PosInv (scanFiles q lbl fs acc) := by
  induction fs generalizing acc with
  | nil => exact h
  | cons f rest ih => exact ih (scanFile_posInv h f)

lemma scanStatic_posInv {q : Feat} {acc : ℝ × Option Str}
    (h : PosInv acc) (ds : List LabelDir) : PosInv (scanStatic q ds acc) := by
  induction ds generalizing acc with
  | nil => exact h
  | cons d rest ih => exact ih (scanFiles_posInv h d.files)

lemma scanLearnedStep_posInv {q : Feat} {st : List (Str × Feat) × ℝ × Option Str}
    (h : PosInv st.2) (f : RefFile) : PosInv (scanLearnedStep q st f).2 := by
  rcases hc : cacheLookup (learnedNameOf f.stem) st.1 with _ | ft
  · rcases hf : featOf f.content with _ | ft
    · rw [scanLearnedStep_miss_none q hc hf]
      exact h
    · by_cases hlt : st.2.1 < calculate_similarity q ft
      · rw [scanLearnedStep_miss_lt q hc hf hlt]
        exact ⟨le_of_lt (lt_of_le_of_lt h.1 hlt), fun l _ => lt_of_le_of_lt h.1 hlt⟩
      · rw [scanLearnedStep_miss_ge q hc hf hlt]
        exact h
  · by_cases hlt : st.2.1 < calculate_similarity q ft
    · rw [scanLearnedStep_hit_lt q hc hlt]
      exact ⟨le_of_lt (lt_of_le_of_lt h.1 hlt), fun l _ => lt_of_le_of_lt h.1 hlt⟩
    · rw [scanLearnedStep_hit_ge q hc hlt]
      exact h

lemma scanLearned_posInv {q : Feat} {st : List (Str × Feat) × ℝ × Option Str}
    (h : PosInv st.2) (fs : List RefFile) : PosInv (scanLearned q fs st).2 := by
  induction fs generalizing st with
  | nil => exact h
  | cons f rest ih => exact ih (scanLearnedStep_posInv h f)

lemma scanFiles_append (q : Feat) (lbl : Str) (l1 l2 : List RefFile)
    (acc : ℝ × Option Str) :
    scanFiles q lbl (l1 ++ l2) acc = scanFiles q lbl l2 (scanFiles q lbl l1 acc) := by
  induction l1 generalizing acc with
  | nil => rfl
  | cons f rest ih =>
      rw [List.cons_append, scanFiles, scanFiles, ih]

lemma scanLearned_append (q : Feat) (l1 l2 : List RefFile)
    (st : List (Str × Feat) × ℝ × Option Str) :
    scanLearned q (l1 ++ l2) st = scanLearned q l2 (scanLearned q l1 st) := by
  induction l1 generalizing st with
  | nil => rfl
  | cons f rest ih =>
      rw [List.cons_append, scanLearned, scanLearned, ih]

/-- Keys absent from the cache and from the prefixes of the scanned files
stay absent: the learned loop only ever fills the prefix of a scanned
file. -/
lemma scanLearned_cacheLookup_none (q : Feat) (fs : List RefFile)
    (st : List (Str × Feat) × ℝ × Option Str) (k : Str)
    (h1 : cacheLookup k st.1 = none)
    (h2 : ∀ f ∈ fs, learnedNameOf f.stem ≠ k) :
    cacheLookup k (scanLearned q fs st).1 = none := by
  induction fs generalizing st with
  | nil => exact h1
  | cons f rest ih =>
      rw [scanLearned]
      apply ih
      · rcases hc : cacheLookup (learnedNameOf f.stem) st.1 with _ | ft
        · rcases hf : featOf f.content with _ | ft
          · rw [scanLearnedStep_miss_none q hc hf]
            exact h1
          · have hne : k ≠ learnedNameOf f.stem :=
              fun h => (h2 f (List.mem_cons_self _ _)) h.symm
            by_cases hlt : st.2.1 < calculate_similarity q ft
            · rw [scanLearnedStep_miss_lt q hc hf hlt]
              rw [cacheLookup_cacheInsert_ne hne]
              exact h1
            · rw [scanLearnedStep_miss_ge q hc hf hlt]
              rw [cacheLookup_cacheInsert_ne hne]
              exact h1
        · by_cases hlt : st.2.1 < calculate_similarity q ft
          · rw [scanLearnedStep_hit_lt q hc hlt]
            exact h1
          · rw [scanLearnedStep_hit_ge q hc hlt]
            exact h1
      · exact fun g hg => h2 g (List.mem_cons_of_mem _ hg)

/-! ### Below-one invariants (used for the learn-then-identify theorem) -/

lemma scanFiles_lt_one {q : Feat} {lbl : Str} {fs : List RefFile}
    {acc : ℝ × Option Str}
    (hall : ∀ f ∈ fs, ∀ ft, featOf f.content = some ft →
      calculate_similarity q ft < 1)
    (hacc : acc.1 < 1) : (scanFiles q lbl fs acc).1 < 1 := by
  induction fs generalizing acc with
  | nil => exact hacc
  | cons f rest ih =>
      rw [scanFiles]
      apply ih (fun g hg => hall g (List.mem_cons_of_mem _ hg))
      rcases hf : featOf f.content with _ | ft
      · rw [scanFile_none q lbl acc hf]
        exact hacc
      · by_cases hlt : acc.1 < calculate_similarity q ft
        · rw [scanFile_some_lt q lbl hf hlt]
          exact hall f (List.mem_cons_self _ _) ft hf
        · rw [scanFile_some_ge q lbl hf hlt]
          exact hacc

lemma scanStatic_lt_one {q : Feat} {ds : List LabelDir} {acc : ℝ × Option Str}
    (hall : ∀ d ∈ ds, ∀ f ∈ d.files, ∀ ft, featOf f.content = some ft →
      calculate_similarity q ft < 1)
    (hacc : acc.1 < 1) : (scanStatic q ds acc).1 < 1 := by
  induction ds generalizing acc with
  | nil => exact hacc
  | cons d rest ih =>
      rw [scanStatic]
      apply ih (fun d' hd' => hall d' (List.mem_cons_of_mem _ hd'))
      exact scanFiles_lt_one (hall d (List.mem_cons_self _ _)) hacc

set_option maxHeartbeats 1000000 in
lemma scanLearnedStep_convInv {q qf : Feat} {n : Str}
    {st : List (Str × Feat) × ℝ × Option Str} {f : RefFile}
    (hqq : calculate_similarity q qf = 1)
    (hf1 : learnedNameOf f.stem ≠ n → ∀ ft, featOf f.content = some ft →
      calculate_similarity q ft < 1)
    (hinv : ConvInv q n qf st) : ConvInv q n qf (scanLearnedStep q st f) := by
  obtain ⟨hl, he, hb, hn⟩ := hinv
  rcases hc : cacheLookup (learnedNameOf f.stem) st.1 with _ | ft
  · rcases hff : featOf f.content with _ | ft
    · rw [scanLearnedStep_miss_none q hc hff]
      exact ⟨hl, he, hb, hn⟩
    · have hpn : learnedNameOf f.stem ≠ n := by
        intro hpe
        rw [hpe, hl] at hc
        cases hc
      have hlt1 : calculate_similarity q ft < 1 := hf1 hpn ft hff
      have hl' : cacheLookup n (cacheInsert (learnedNameOf f.stem) ft st.1) = some qf := by
        rw [cacheLookup_cacheInsert_ne (fun h => hpn h.symm)]
        exact hl
      have he' : ∀ e ∈ cacheInsert (learnedNameOf f.stem) ft st.1, e.1 ≠ n →
          calculate_similarity q e.2 < 1 := by
        intro e hme hne
        rcases mem_cacheInsert hme with rfl | hme'
        · exact hlt1
        · exact he e hme' hne
      by_cases hlt : st.2.1 < calculate_similarity q ft
      · rw [scanLearnedStep_miss_lt q hc hff hlt]
        refine ⟨hl', he', le_of_lt hlt1, fun h1 => absurd h1 (ne_of_lt hlt1)⟩
      · rw [scanLearnedStep_miss_ge q hc hff hlt]
        exact ⟨hl', he', hb, hn⟩
  · by_cases hlt : st.2.1 < calculate_similarity q ft
    · rw [scanLearnedStep_hit_lt q hc hlt]
      by_cases hpn : learnedNameOf f.stem = n
      · rw [hpn, hl] at hc
        injection hc with hc
        refine ⟨hl, he, ?_, ?_⟩
        · show calculate_similarity q ft ≤ 1
          rw [← hc, hqq]
        · intro _
          show some (learnedNameOf f.stem) = some n
          rw [hpn]
      · have hmem : (learnedNameOf f.stem, ft) ∈ st.1 := cacheLookup_mem hc
        have hlt1 : calculate_similarity q ft < 1 := he (learnedNameOf f.stem, ft) hmem hpn
        refine ⟨hl, he, le_of_lt hlt1, fun h1 => absurd h1 (ne_of_lt hlt1)⟩
    · rw [scanLearnedStep_hit_ge q hc hlt]
      exact ⟨hl, he, hb, hn⟩

lemma scanLearned_convInv {q qf : Feat} {n : Str} {fs : List RefFile}
    {st : List (Str × Feat) × ℝ × Option Str}
    (hqq : calculate_similarity q qf = 1)
    (hfs : ∀ f ∈ fs, learnedNameOf f.stem ≠ n → ∀ ft, featOf f.content = some ft →
      calculate_similarity q ft < 1)
    (hinv : ConvInv q n qf st) : ConvInv q n qf (scanLearned q fs st) := by
  induction fs generalizing st with
  | nil => exact hinv
  | cons f rest ih =>
      rw [scanLearned]
      exact ih (fun g hg => hfs g (List.mem_cons_of_mem _ hg))
        (scanLearnedStep_convInv hqq (hfs f (List.mem_cons_self _ _)) hinv)

/-- Processing the freshly learned file itself: its prefix resolves in the
cache to the query's own descriptor, so the running best ends at exactly 1
with the normalized label selected. -/
lemma scanLearnedStep_final {q qf : Feat} {n : Str}
    {st : List (Str × Feat) × ℝ × Option Str} {f : RefFile}
    (hqq : calculate_similarity q qf = 1)
    (hpn : learnedNameOf f.stem = n)
    (hinv : ConvInv q n qf st) :
    (scanLearnedStep q st f).2.1 = 1 ∧ (scanLearnedStep q st f).2.2 = some n := by
  obtain ⟨hl, he, hb, hn⟩ := hinv
  have hc : cacheLookup (learnedNameOf f.stem) st.1 = some qf := by
    rw [hpn]
    exact hl
  by_cases hlt : st.2.1 < calculate_similarity q qf
  · rw [scanLearnedStep_hit_lt q hc hlt]
    exact ⟨hqq, by rw [hpn]⟩
  · rw [scanLearnedStep_hit_ge q hc hlt]
    rw [hqq] at hlt
    have hb1 : st.2.1 = 1 := le_antisymm hb (not_lt.mp hlt)
    exact ⟨hb1, hn hb1⟩

/-! ### `round3` lemmas -/

lemma round3_nonneg {x : ℝ} (hx : 0 ≤ x) : 0 ≤ round3 x := by
  unfold round3
  apply div_nonneg _ (by norm_num)
  have h2 : (0 : ℤ) ≤ round (x * 1000) := by
    rw [round_eq]
    apply Int.floor_nonneg.mpr
    nlinarith
  exact_mod_cast h2

lemma round3_one : round3 1 = 1 := by
  unfold round3
  rw [show ((1 : ℝ) * 1000) = ((1000 : ℤ) : ℝ) by norm_num, round_intCast]
  norm_num

lemma round3_zero : round3 0 = 0 := by
  unfold round3
  rw [show ((0 : ℝ) * 1000) = ((0 : ℤ) : ℝ) by norm_num, round_intCast]
  norm_num

/-! ### The extracted descriptor of a preprocessed image is never the zero
vector: the saturation histogram counts every pixel (saturation bytes lie
in `[0, 256)`), so some bin of `hist_s` is positive. -/

lemma mem_pixelsOf {α : Type} {H W i j : ℕ} (f : ℕ → ℕ → α)
    (hi : i < H) (hj : j < W) : f i j ∈ pixelsOf H W f := by
  unfold pixelsOf
  rw [List.mem_flatMap]
  exact ⟨i, List.mem_range.mpr hi,
    List.mem_map.mpr ⟨j, List.mem_range.mpr hj, rfl⟩⟩

lemma satHist_entry_pos (img : PImage) (hH : 0 < img.H) (hW : 0 < img.W) :
    ∃ x ∈ calcHist (satVals img) 32 0 256, 0 < x := by
  set s := img.sat 0 0 with hsdef
  have hs : s < 256 := img.sat_lt 0 0 hH hW
  set k := s / 8 with hkdef
  have hk : k < 32 := by omega
  refine ⟨_, List.mem_map.mpr ⟨k, List.mem_range.mpr hk, rfl⟩, ?_⟩
  have hpos : 0 < (satVals img).countP fun v =>
      decide ((0 : ℚ) + (k : ℚ) * ((256 - 0) / ((32 : ℕ) : ℚ)) ≤ v) &&
      decide (v < (0 : ℚ) + ((k : ℚ) + 1) * ((256 - 0) / ((32 : ℕ) : ℚ))) := by
    rw [List.countP_pos_iff]
    refine ⟨(s : ℚ), List.mem_map.mpr ⟨s, mem_pixelsOf img.sat hH hW, rfl⟩, ?_⟩
    have h1 : 8 * k ≤ s := by omega
    have h2 : s < 8 * (k + 1) := by omega
    have h1q : (8 : ℚ) * (k : ℚ) ≤ (s : ℚ) := by exact_mod_cast h1
    have h2q : (s : ℚ) < 8 * ((k : ℚ) + 1) := by exact_mod_cast h2
    simp only [Bool.and_eq_true, decide_eq_true_eq]
    constructor
    · push_cast
      nlinarith [h1q]
    · push_cast
      nlinarith [h2q]
  exact_mod_cast hpos

lemma mem_extract_features_of_mem_satHist {img : PImage} {x : ℚ}
    (hx : x ∈ calcHist (satVals img) 32 0 256) : x ∈ extract_features img := by
  unfold extract_features
  simp only [List.mem_append]
  tauto

lemma extract_features_normSq_pos (img : PImage) (hH : 0 < img.H)
    (hW : 0 < img.W) : 0 < normSqQ (extract_features img) := by
  obtain ⟨x, hx, hxpos⟩ := satHist_entry_pos img hH hW
  exact mem_normSqQ_pos (mem_extract_features_of_mem_satHist hx) (ne_of_gt hxpos)

/-! ### Specification lemmas for `identify_plant` / `learn_plant` -/

lemma identify_plant_eq (store : Store) (path : Str) (c : ImgContent)
    (pimg : PImage) (hpil : c.pilValid = true) (hpix : c.pix = some pimg) :
    identify_plant store true path c =
      if similarityThreshold < (identifyScan store (extract_features pimg)).2.1 then
        ({ success := true,
           plant_name := (identifyScan store (extract_features pimg)).2.2,
           confidence := some (round3 (identifyScan store (extract_features pimg)).2.1) },
         { store with cache := (identifyScan store (extract_features pimg)).1 })
      else
        ({ success := false,
           error := some ("I do not know this plant. Please help me learn by providing its name.".data),
           needs_learning := true,
           confidence := some (if 0 < (identifyScan store (extract_features pimg)).2.1 then
             round3 (identifyScan store (extract_features pimg)).2.1 else 0) },
         { store with cache := (identifyScan store (extract_features pimg)).1 }) := by
  rw [identify_plant]
  rw [if_neg (by simp)]
  rw [if_neg (by simp [hpil])]
  rw [hpix]
  dsimp only [identifyScan]

lemma learn_plant_validation_ok (store : Store) (path : Str) (c : ImgContent)
    (plantName ts : Str) (hb : pyBlank plantName = false) :
    learn_plant store true path c plantName ts =
      (match featOf c with
       | none =>
          ({ success := false, error := some ("Learning failed: ".data) },
           { store with learned := store.learned ++
              [⟨normalizeLabel plantName ++ ['_'] ++ ts ++ ['_'] ++ c.hash8, c⟩] })
       | some ft =>
          ({ success := true, plant_name := some (normalizeLabel plantName),
             stored_path := some ("ai-service/learned_plants/".data ++
               (normalizeLabel plantName ++ ['_'] ++ ts ++ ['_'] ++ c.hash8) ++ ".jpg".data) },
           { store with
              learned := store.learned ++
                [⟨normalizeLabel plantName ++ ['_'] ++ ts ++ ['_'] ++ c.hash8, c⟩],
              cache := cacheInsert (normalizeLabel plantName) ft store.cache,
              log := store.log ++ [⟨ts, normalizeLabel plantName,
                "ai-service/learned_plants/".data ++
                  (normalizeLabel plantName ++ ['_'] ++ ts ++ ['_'] ++ c.hash8) ++ ".jpg".data,
                path⟩] })) := by
  rw [learn_plant]
  rw [if_neg (by simp)]
  rw [if_neg (by simp [hb])]

/-- A successful `learn_plant` call: the label was non-blank, the image
preprocessed to some `pimg`, and the store is extended as the source
describes (copied file, overwritten cache entry, appended log entry). -/
lemma learn_plant_success_spec (store : Store) (path : Str) (c : ImgContent)
    (plantName ts : Str)
    (h : (learn_plant store true path c plantName ts).1.success = true) :
    pyBlank plantName = false ∧
    ∃ pimg, c.pix = some pimg ∧
      (learn_plant store true path c plantName ts).2 =
        { store with
            learned := store.learned ++
              [⟨normalizeLabel plantName ++ ['_'] ++ ts ++ ['_'] ++ c.hash8, c⟩],
            cache := cacheInsert (normalizeLabel plantName) (extract_features pimg) store.cache,
            log := store.log ++ [⟨ts, normalizeLabel plantName,
              "ai-service/learned_plants/".data ++
                (normalizeLabel plantName ++ ['_'] ++ ts ++ ['_'] ++ c.hash8) ++ ".jpg".data,
              path⟩] } := by
  by_cases hb : pyBlank plantName
  · rw [learn_plant, if_neg (by simp), if_pos hb] at h
    simp at h
  · have hb' : pyBlank plantName = false := by simpa using hb
    refine ⟨hb', ?_⟩
    rw [learn_plant_validation_ok store path c plantName ts hb'] at h ⊢
    rcases hf : featOf c with _ | ft
    · rw [hf] at h
      simp at h
    · obtain ⟨pimg, hpix, hext⟩ := Option.map_eq_some'.mp hf
      refine ⟨pimg, hpix, ?_⟩
      rw [hext]

lemma identifyScan_posInv (store : Store) (q : Feat) :
    PosInv (identifyScan store q).2 := by
  unfold identifyScan
  apply scanLearned_posInv
  show PosInv ((store.cache, scanStatic q store.staticDirs (0, none))).2
  exact scanStatic_posInv ⟨le_refl 0, fun l hl => by simp at hl⟩ store.staticDirs

lemma identifyScan_none (store : Store) (q : Feat)
    (h : (identifyScan store q).2.2 = none) : (identifyScan store q).2.1 = 0 := by
  unfold identifyScan at h ⊢
  have h2 := scanLearned_snd_eq_of_none q store.learned
    (store.cache, scanStatic q store.staticDirs (0, none)) h
  rw [h2] at h ⊢
  have h3 : (scanStatic q store.staticDirs (0, none)).2 = none := h
  rw [scanStatic_eq_of_none q store.staticDirs (0, none) h3]

/-! ## Claim theorems -/

/-- C3: for feature vectors of equal length, `calculate_similarity` lies in
`[-1, 1]`; it is `0` whenever either vector has zero L2 norm (the guard on
lines 139-140 prevents the division); and the self-similarity of any vector
with a nonzero entry is exactly `1`. -/
theorem c3_similarity_contract (a b : Feat) (hlen : a.length = b.length) :
    (-1 ≤ calculate_similarity a b ∧ calculate_similarity a b ≤ 1) ∧
    (l2norm a = 0 ∨ l2norm b = 0 → calculate_similarity a b = 0) ∧
    ((∃ x ∈ a, x ≠ 0) → calculate_similarity a a = 1) := by
  refine ⟨calculate_similarity_mem_Icc a b, fun h => ?_, fun hx => ?_⟩
  · unfold calculate_similarity
    rw [if_pos h]
  · obtain ⟨x, hmem, hx0⟩ := hx
    exact calculate_similarity_self (ne_of_gt (mem_normSqQ_pos hmem hx0))

theorem c3_similarity_contract_witness :
    ([(1 : ℚ), 0].length = [(0 : ℚ), 1].length) ∧
    ((-1 ≤ calculate_similarity [(1 : ℚ), 0] [(0 : ℚ), 1] ∧
        calculate_similarity [(1 : ℚ), 0] [(0 : ℚ), 1] ≤ 1) ∧
     (l2norm [(1 : ℚ), 0] = 0 ∨ l2norm [(0 : ℚ), 1] = 0 →
        calculate_similarity [(1 : ℚ), 0] [(0 : ℚ), 1] = 0) ∧
     ((∃ x ∈ [(1 : ℚ), 0], x ≠ 0) →
        calculate_similarity [(1 : ℚ), 0] [(1 : ℚ), 0] = 1)) :=
  ⟨by decide, c3_similarity_contract [(1 : ℚ), 0] [(0 : ℚ), 1] (by decide)⟩

/-- C4: `extract_features` is the concatenation, in this fixed order, of the
five 32-bin histograms (red, green, blue, hue, saturation), the single
edge-density scalar, and the 16-bin texture histogram, for a total length of
`32*5 + 1 + 16 = 177`. -/
theorem c4_extract_features_layout (img : PImage) :
    extract_features img =
      calcHist (redVals img) 32 0 1 ++ calcHist (greenVals img) 32 0 1 ++
      calcHist (blueVals img) 32 0 1 ++ calcHist (hueVals img) 32 0 180 ++
      calcHist (satVals img) 32 0 256 ++ [edgeDensity img] ++
      npHistogram16 (texturePatterns img) ∧
    (calcHist (redVals img) 32 0 1).length = 32 ∧
    (calcHist (greenVals img) 32 0 1).length = 32 ∧
    (calcHist (blueVals img) 32 0 1).length = 32 ∧
    (calcHist (hueVals img) 32 0 180).length = 32 ∧
    (calcHist (satVals img) 32 0 256).length = 32 ∧
    (npHistogram16 (texturePatterns img)).length = 16 ∧
    (extract_features img).length = 177 := by
  refine ⟨rfl, calcHist_length _ _ _ _, calcHist_length _ _ _ _, calcHist_length _ _ _ _,
    calcHist_length _ _ _ _, calcHist_length _ _ _ _, npHistogram16_length _, ?_⟩
  rw [extract_features]
  simp only [List.length_append, calcHist_length, npHistogram16_length,
    List.length_singleton]

/-- C9: both validation failures of `learn_plant` — missing image path, or a
label that is empty after trimming whitespace — return the corresponding
error dict and leave the store (learned directory, cache and log) untouched. -/
theorem c9_learn_validation_no_state_change (store : Store) (path : Str)
    (c : ImgContent) (plantName ts : Str) (hb : pyBlank plantName = true) :
    learn_plant store false path c plantName ts =
      ({ success := false, error := some ("Image file not found: ".data ++ path) },
       store) ∧
    learn_plant store true path c plantName ts =
      ({ success := false, error := some ("Plant name cannot be empty".data) },
       store) := by
  constructor
  · rw [learn_plant, if_pos rfl]
  · rw [learn_plant, if_neg (by simp), if_pos hb]

theorem c9_learn_validation_no_state_change_witness :
    pyBlank (" ".data) = true ∧
    (learn_plant emptyStore false ("a.jpg".data) cGood (" ".data) ("t".data) =
      ({ success := false, error := some ("Image file not found: ".data ++ "a.jpg".data) },
       emptyStore) ∧
     learn_plant emptyStore true ("a.jpg".data) cGood (" ".data) ("t".data) =
      ({ success := false, error := some ("Plant name cannot be empty".data) },
       emptyStore)) :=
  ⟨by decide,
   c9_learn_validation_no_state_change emptyStore ("a.jpg".data) cGood
     (" ".data) ("t".data) (by decide)⟩

/-- C1: an identification call that completes its scan (path exists, PIL
accepts the file, preprocessing succeeds) returns the Match dict —
`success = true` with a plant name and a confidence — iff the best score of
the scan exceeds the similarity threshold 0.7 strictly; otherwise it
returns the Unknown dict with `success = false`, `needs_learning = true`
and the (rounded) best score as confidence. -/
theorem c1_match_iff_best_above_threshold (store : Store) (path : Str)
    (c : ImgContent) (pimg : PImage)
    (hpix : c.pix = some pimg) (hpil : c.pilValid = true) :
    ((identify_plant store true path c).1.success = true ↔
      similarityThreshold < (identifyScan store (extract_features pimg)).2.1) ∧
    (similarityThreshold < (identifyScan store (extract_features pimg)).2.1 →
      (∃ nm, (identify_plant store true path c).1.plant_name = some nm) ∧
      (identify_plant store true path c).1.confidence =
        some (round3 (identifyScan store (extract_features pimg)).2.1) ∧
      (identify_plant store true path c).1.needs_learning = false) ∧
    (¬similarityThreshold < (identifyScan store (extract_features pimg)).2.1 →
      (identify_plant store true path c).1.success = false ∧
      (identify_plant store true path c).1.needs_learning = true ∧
      (identify_plant store true path c).1.confidence =
        some (round3 (identifyScan store (extract_features pimg)).2.1)) := by
  have hEq := identify_plant_eq store path c pimg hpil hpix
  by_cases hth : similarityThreshold < (identifyScan store (extract_features pimg)).2.1
  · rw [hEq, if_pos hth]
    refine ⟨by simp [hth], fun _ => ⟨?_, rfl, rfl⟩, fun h => absurd hth h⟩
    rcases hnm : (identifyScan store (extract_features pimg)).2.2 with _ | nm
    · exfalso
      have h0 := identifyScan_none store (extract_features pimg) hnm
      rw [h0] at hth
      rw [similarityThreshold] at hth
      norm_num at hth
    · exact ⟨nm, by simp [hnm]⟩
  · rw [hEq, if_neg hth]
    refine ⟨by simp [hth], fun h => absurd h hth, fun _ => ⟨rfl, rfl, ?_⟩⟩
    have h0 : 0 ≤ (identifyScan store (extract_features pimg)).2.1 :=
      (identifyScan_posInv store (extract_features pimg)).1
    by_cases hz : 0 < (identifyScan store (extract_features pimg)).2.1
    · rw [if_pos hz]
    · rw [if_neg hz]
      have hzz : (identifyScan store (extract_features pimg)).2.1 = 0 :=
        le_antisymm (not_lt.mp hz) h0
      rw [hzz, round3_zero]

theorem c1_match_iff_best_above_threshold_witness :
    cGood.pix = some pimg0 ∧ cGood.pilValid = true ∧
    (((identify_plant emptyStore true ("q.jpg".data) cGood).1.success = true ↔
        similarityThreshold < (identifyScan emptyStore (extract_features pimg0)).2.1) ∧
     (similarityThreshold < (identifyScan emptyStore (extract_features pimg0)).2.1 →
        (∃ nm, (identify_plant emptyStore true ("q.jpg".data) cGood).1.plant_name = some nm) ∧
        (identify_plant emptyStore true ("q.jpg".data) cGood).1.confidence =
          some (round3 (identifyScan emptyStore (extract_features pimg0)).2.1) ∧
        (identify_plant emptyStore true ("q.jpg".data) cGood).1.needs_learning = false) ∧
     (¬similarityThreshold < (identifyScan emptyStore (extract_features pimg0)).2.1 →
        (identify_plant emptyStore true ("q.jpg".data) cGood).1.success = false ∧
        (identify_plant emptyStore true ("q.jpg".data) cGood).1.needs_learning = true ∧
        (identify_plant emptyStore true ("q.jpg".data) cGood).1.confidence =
          some (round3 (identifyScan emptyStore (extract_features pimg0)).2.1))) :=
  ⟨rfl, rfl,
   c1_match_iff_best_above_threshold emptyStore ("q.jpg".data) cGood pimg0 rfl rfl⟩

/-- C10: for a completed identification scan, any reported confidence —
Match or Unknown — is nonnegative, and a best-match name is only ever
selected with a strictly positive best score (the running best starts at 0
and is replaced only on strictly greater similarity), so a reference with
negative cosine similarity is never selected. -/
theorem c10_confidence_nonneg_and_no_negative_best (store : Store) (path : Str)
    (c : ImgContent) (pimg : PImage)
    (hpix : c.pix = some pimg) (hpil : c.pilValid = true) :
    (∀ conf, (identify_plant store true path c).1.confidence = some conf →
      0 ≤ conf) ∧
    (∀ nm, (identifyScan store (extract_features pimg)).2.2 = some nm →
      0 < (identifyScan store (extract_features pimg)).2.1) := by
  have hpos := identifyScan_posInv store (extract_features pimg)
  refine ⟨?_, fun nm hnm => hpos.2 nm hnm⟩
  intro conf hconf
  rw [identify_plant_eq store path c pimg hpil hpix] at hconf
  by_cases hth : similarityThreshold < (identifyScan store (extract_features pimg)).2.1
  · rw [if_pos hth] at hconf
    simp only [Option.some.injEq] at hconf
    rw [← hconf]
    exact round3_nonneg hpos.1
  · rw [if_neg hth] at hconf
    simp only [Option.some.injEq] at hconf
    rw [← hconf]
    by_cases hz : 0 < (identifyScan store (extract_features pimg)).2.1
    · rw [if_pos hz]
      exact round3_nonneg hpos.1
    · rw [if_neg hz]

theorem c10_confidence_nonneg_and_no_negative_best_witness :
    cGood.pix = some pimg0 ∧ cGood.pilValid = true ∧
    ((∀ conf, (identify_plant emptyStore true ("q.jpg".data) cGood).1.confidence =
        some conf → 0 ≤ conf) ∧
     (∀ nm, (identifyScan emptyStore (extract_features pimg0)).2.2 = some nm →
        0 < (identifyScan emptyStore (extract_features pimg0)).2.1)) :=
  ⟨rfl, rfl,
   c10_confidence_nonneg_and_no_negative_best emptyStore ("q.jpg".data) cGood pimg0 rfl rfl⟩

/-- C7: a reference file whose processing raises is recovered locally.  In
the static loop, and in the learned loop whenever the bad file's prefix is
not already resolvable through the cache, the scan result is exactly the
one of the same scan without the bad file; and an identification call whose
query is valid always reaches the threshold decision (Match or Unknown) —
it is never aborted by reference files, however broken. -/
theorem c7_bad_reference_skipped_scan_continues (q : Feat) (lbl : Str)
    (bad : RefFile) (xs ys : List RefFile) (acc : ℝ × Option Str)
    (st : List (Str × Feat) × ℝ × Option Str)
    (store : Store) (path : Str) (c : ImgContent) (pimg : PImage)
    (hbad : featOf bad.content = none)
    (hk1 : cacheLookup (learnedNameOf bad.stem) st.1 = none)
    (hk2 : ∀ f ∈ xs, learnedNameOf f.stem ≠ learnedNameOf bad.stem)
    (hpix : c.pix = some pimg) (hpil : c.pilValid = true) :
    scanFiles q lbl (xs ++ bad :: ys) acc = scanFiles q lbl (xs ++ ys) acc ∧
    scanLearned q (xs ++ bad :: ys) st = scanLearned q (xs ++ ys) st ∧
    ((identify_plant store true path c).1.success = true ∨
      (identify_plant store true path c).1.needs_learning = true) := by
  refine ⟨?_, ?_, ?_⟩
  · rw [scanFiles_append q lbl xs (bad :: ys) acc, scanFiles_append q lbl xs ys acc]
    rw [scanFiles]
    rw [scanFile_none q lbl _ hbad]
  · rw [scanLearned_append q xs (bad :: ys) st, scanLearned_append q xs ys st]
    rw [scanLearned]
    rw [scanLearnedStep_miss_none q
      (scanLearned_cacheLookup_none q xs st (learnedNameOf bad.stem) hk1 hk2) hbad]
  · rw [identify_plant_eq store path c pimg hpil hpix]
    by_cases hth : similarityThreshold < (identifyScan store (extract_features pimg)).2.1
    · rw [if_pos hth]
      left
      rfl
    · rw [if_neg hth]
      right
      rfl

theorem c7_bad_reference_skipped_scan_continues_witness :
    featOf badFile.content = none ∧
    cacheLookup (learnedNameOf badFile.stem) (([] : List (Str × Feat)), (0 : ℝ),
      (none : Option Str)).1 = none ∧
    (∀ f ∈ ([] : List RefFile), learnedNameOf f.stem ≠ learnedNameOf badFile.stem) ∧
    cGood.pix = some pimg0 ∧ cGood.pilValid = true ∧
    (scanFiles q0 ("maize".data) ([] ++ badFile :: []) ((0 : ℝ), none) =
        scanFiles q0 ("maize".data) ([] ++ []) ((0 : ℝ), none) ∧
     scanLearned q0 ([] ++ badFile :: []) (([] : List (Str × Feat)), (0 : ℝ), none) =
        scanLearned q0 ([] ++ []) (([] : List (Str × Feat)), (0 : ℝ), none) ∧
     ((identify_plant emptyStore true ("q.jpg".data) cGood).1.success = true ∨
       (identify_plant emptyStore true ("q.jpg".data) cGood).1.needs_learning = true)) :=
  ⟨rfl, rfl, fun f hf => absurd hf (List.not_mem_nil f), rfl, rfl,
   c7_bad_reference_skipped_scan_continues q0 ("maize".data) badFile [] []
     ((0 : ℝ), none) (([] : List (Str × Feat)), (0 : ℝ), none)
     emptyStore ("q.jpg".data) cGood pimg0 rfl rfl
     (fun f hf => absurd hf (List.not_mem_nil f)) rfl rfl⟩

/-- C5: at every interior pixel (one-pixel border excluded) the texture
component records the 8-bit pattern in which the 8 neighbours, taken
clockwise starting at the top-left neighbour, contribute `2^k` exactly when
strictly brighter than the centre; the pattern is below 256, the interior
traversal contributes `(H-2)*(W-2)` patterns, and these values feed the
16-bin histogram `npHistogram16` over `[0, 255]`. -/
theorem c5_texture_lbp_clockwise (img : PImage) (i j : ℕ)
    (hi1 : 1 ≤ i) (hi2 : i + 1 < img.H) (hj1 : 1 ≤ j) (hj2 : j + 1 < img.W) :
    lbpPattern img.gray i j ∈ texturePatterns img ∧
    lbpPattern img.gray i j =
      (∑ k ∈ Finset.range 8,
        if img.gray (clockwiseNbr i j k).1 (clockwiseNbr i j k).2 > img.gray i j
        then 2 ^ k else 0) ∧
    lbpPattern img.gray i j < 256 ∧
    (texturePatterns img).length = (img.H - 2) * (img.W - 2) := by
  have hsum : lbpPattern img.gray i j =
      (∑ k ∈ Finset.range 8,
        if img.gray (clockwiseNbr i j k).1 (clockwiseNbr i j k).2 > img.gray i j
        then 2 ^ k else 0) := by
    simp only [Finset.sum_range_succ, Finset.sum_range_zero]
    dsimp only [clockwiseNbr]
    simp only [lbpPattern, ite_mul, one_mul, zero_mul]
    norm_num
  refine ⟨?_, hsum, ?_, ?_⟩
  · unfold texturePatterns
    rw [List.mem_flatMap]
    refine ⟨i, ?_, List.mem_map.mpr ⟨j, ?_, rfl⟩⟩
    · rw [List.mem_range'_1]
      omega
    · rw [List.mem_range'_1]
      omega
  · rw [hsum]
    have hle : (∑ k ∈ Finset.range 8,
        if img.gray (clockwiseNbr i j k).1 (clockwiseNbr i j k).2 > img.gray i j
        then 2 ^ k else 0) ≤ ∑ k ∈ Finset.range 8, 2 ^ k :=
      Finset.sum_le_sum (fun k _ => by split <;> simp)
    have h255 : (∑ k ∈ Finset.range 8, (2 : ℕ) ^ k) = 255 := by decide
    omega
  · unfold texturePatterns
    rw [List.length_flatMap]
    have hfun : (List.length ∘ fun i => List.map (fun j => lbpPattern img.gray i j)
        (List.range' 1 (img.W - 2))) = (fun _ : ℕ => img.W - 2) := by
      funext a
      simp [List.length_map, List.length_range']
    rw [hfun, List.map_const', List.length_range', List.sum_replicate, smul_eq_mul]

theorem c5_texture_lbp_clockwise_witness :
    1 ≤ 1 ∧ 1 + 1 < pimg0.H ∧ 1 ≤ 1 ∧ 1 + 1 < pimg0.W ∧
    (lbpPattern pimg0.gray 1 1 ∈ texturePatterns pimg0 ∧
     lbpPattern pimg0.gray 1 1 =
       (∑ k ∈ Finset.range 8,
         if pimg0.gray (clockwiseNbr 1 1 k).1 (clockwiseNbr 1 1 k).2 > pimg0.gray 1 1
         then 2 ^ k else 0) ∧
     lbpPattern pimg0.gray 1 1 < 256 ∧
     (texturePatterns pimg0).length = (pimg0.H - 2) * (pimg0.W - 2)) :=
  ⟨le_refl 1, by norm_num [pimg0], le_refl 1, by norm_num [pimg0],
   c5_texture_lbp_clockwise pimg0 1 1 (le_refl 1) (by norm_num [pimg0])
     (le_refl 1) (by norm_num [pimg0])⟩

/-- C6: two successful `learn_plant` calls whose labels normalize to the
same name leave exactly one cache entry for that name, and that entry is the
descriptor of the most recently learned image — learning overwrites instead
of accumulating. -/
theorem c6_cache_last_write_wins (store : Store) (p1 p2 : Str)
    (c1 c2 : ImgContent) (l1 l2 ts1 ts2 : Str) (pimg2 : PImage)
    (hnodup : (store.cache.map Prod.fst).Nodup)
    (hlab : normalizeLabel l1 = normalizeLabel l2)
    (h1 : (learn_plant store true p1 c1 l1 ts1).1.success = true)
    (h2 : (learn_plant (learn_plant store true p1 c1 l1 ts1).2 true p2 c2 l2 ts2).1.success = true)
    (hpix2 : c2.pix = some pimg2) :
    keyCount (normalizeLabel l2)
      ((learn_plant (learn_plant store true p1 c1 l1 ts1).2 true p2 c2 l2 ts2).2).cache = 1 ∧
    cacheLookup (normalizeLabel l2)
      ((learn_plant (learn_plant store true p1 c1 l1 ts1).2 true p2 c2 l2 ts2).2).cache =
      some (extract_features pimg2) := by
  obtain ⟨hb1, pimg1, hpix1, hst1⟩ := learn_plant_success_spec store p1 c1 l1 ts1 h1
  rw [hst1] at h2 ⊢
  obtain ⟨hb2, pimg2', hpix2', hst2⟩ := learn_plant_success_spec _ p2 c2 l2 ts2 h2
  have hp : pimg2' = pimg2 := by
    rw [hpix2] at hpix2'
    injection hpix2' with h
    exact h.symm
  rw [hst2, hp]
  constructor
  · show keyCount (normalizeLabel l2)
      (cacheInsert (normalizeLabel l2) (extract_features pimg2)
        (cacheInsert (normalizeLabel l1) (extract_features pimg1) store.cache)) = 1
    apply keyCount_cacheInsert
    rw [← hlab]
    exact keyCount_le_one_of_nodup
      (nodup_keys_cacheInsert (normalizeLabel l1) (extract_features pimg1) store.cache hnodup)
  · exact cacheLookup_cacheInsert_self _ _ _

theorem c6_cache_last_write_wins_witness :
    ((emptyStore.cache.map Prod.fst).Nodup) ∧
    normalizeLabel ("Rose".data) = normalizeLabel ("rose".data) ∧
    (learn_plant emptyStore true ("a.jpg".data) cGood ("Rose".data) ("t1".data)).1.success = true ∧
    (learn_plant (learn_plant emptyStore true ("a.jpg".data) cGood ("Rose".data) ("t1".data)).2
      true ("b.jpg".data) cGood ("rose".data) ("t2".data)).1.success = true ∧
    cGood.pix = some pimg0 ∧
    (keyCount (normalizeLabel ("rose".data))
      ((learn_plant (learn_plant emptyStore true ("a.jpg".data) cGood ("Rose".data) ("t1".data)).2
        true ("b.jpg".data) cGood ("rose".data) ("t2".data)).2).cache = 1 ∧
     cacheLookup (normalizeLabel ("rose".data))
      ((learn_plant (learn_plant emptyStore true ("a.jpg".data) cGood ("Rose".data) ("t1".data)).2
        true ("b.jpg".data) cGood ("rose".data) ("t2".data)).2).cache =
      some (extract_features pimg0)) :=
  ⟨List.nodup_nil, by decide, rfl, rfl, rfl,
   c6_cache_last_write_wins emptyStore ("a.jpg".data) ("b.jpg".data) cGood cGood
     ("Rose".data) ("rose".data) ("t1".data) ("t2".data) pimg0
     List.nodup_nil (by decide) rfl rfl rfl⟩

/-- C8: the name under which a freshly learned image is matched (and cached)
by `identify_plant` is the stored stem cut at its first underscore, which is
the normalized label's portion before its own first underscore: always a
prefix of the normalized label, and a proper (truncated) one whenever the
normalized label contains an underscore — in particular for any multi-word
name, whose spaces normalization turns into underscores. -/
theorem c8_learned_label_truncated_at_underscore (store : Store) (path : Str)
    (c : ImgContent) (plantName ts : Str)
    (hs : (learn_plant store true path c plantName ts).1.success = true) :
    ∃ f : RefFile,
      (learn_plant store true path c plantName ts).2.learned = store.learned ++ [f] ∧
      learnedNameOf f.stem = (normalizeLabel plantName).takeWhile (fun ch => ch != '_') ∧
      (normalizeLabel plantName).takeWhile (fun ch => ch != '_') <+: normalizeLabel plantName ∧
      ('_' ∈ normalizeLabel plantName →
        (normalizeLabel plantName).takeWhile (fun ch => ch != '_') ≠
          normalizeLabel plantName) := by
  obtain ⟨hb, pimg, hpix, hst⟩ := learn_plant_success_spec store path c plantName ts hs
  refine ⟨⟨normalizeLabel plantName ++ ['_'] ++ ts ++ ['_'] ++ c.hash8, c⟩, ?_, ?_, ?_, ?_⟩
  · rw [hst]
  · exact learnedNameOf_stored_stem _ _ _
  · exact List.takeWhile_prefix _
  · exact fun h => takeWhile_underscore_ne h

theorem c8_learned_label_truncated_at_underscore_witness :
    (learn_plant emptyStore true ("a.jpg".data) cGood ("Big Tree".data)
      ("t1".data)).1.success = true ∧
    (∃ f : RefFile,
      (learn_plant emptyStore true ("a.jpg".data) cGood ("Big Tree".data)
        ("t1".data)).2.learned = emptyStore.learned ++ [f] ∧
      learnedNameOf f.stem =
        (normalizeLabel ("Big Tree".data)).takeWhile (fun ch => ch != '_') ∧
      (normalizeLabel ("Big Tree".data)).takeWhile (fun ch => ch != '_') <+:
        normalizeLabel ("Big Tree".data) ∧
      ('_' ∈ normalizeLabel ("Big Tree".data) →
        (normalizeLabel ("Big Tree".data)).takeWhile (fun ch => ch != '_') ≠
          normalizeLabel ("Big Tree".data))) :=
  ⟨rfl,
   c8_learned_label_truncated_at_underscore emptyStore ("a.jpg".data) cGood
     ("Big Tree".data) ("t1".data) rfl⟩

/-- C2 (counterexample): learn-then-identify does not always return the
taught label.  With a static dataset that already contains, under the label
`"other"`, an image byte-identical to the query, `learn(img, "foo")`
succeeds but the immediately following `identify(img)` reports
`plant_name = "other"`: the static scan reaches similarity 1 first and the
learned entry's equal score does not strictly beat it. -/
theorem c2_counterexample :
    (learn_plant aliasStore true ("orig.jpg".data) cGood ("foo".data)
      ("20250101".data)).1.success = true ∧
    (identify_plant (learn_plant aliasStore true ("orig.jpg".data) cGood ("foo".data)
      ("20250101".data)).2 true ("orig.jpg".data) cGood).1.success = true ∧
    (identify_plant (learn_plant aliasStore true ("orig.jpg".data) cGood ("foo".data)
      ("20250101".data)).2 true ("orig.jpg".data) cGood).1.plant_name =
      some ("other".data) ∧
    (identify_plant (learn_plant aliasStore true ("orig.jpg".data) cGood ("foo".data)
      ("20250101".data)).2 true ("orig.jpg".data) cGood).1.plant_name ≠
      some ("foo".data) := by
  have hsim : calculate_similarity q0 q0 = 1 :=
    calculate_similarity_self
      (ne_of_gt (extract_features_normSq_pos pimg0 (by decide) (by decide)))
  have hstore1 : (learn_plant aliasStore true ("orig.jpg".data) cGood ("foo".data)
      ("20250101".data)).2 = aliasStore1 := by rfl
  have hfiles : scanFiles q0 ("other".data) [⟨"x".data, cGood⟩] ((0 : ℝ), none) =
      (calculate_similarity q0 q0, some ("other".data)) := by
    rw [scanFiles, scanFiles]
    rw [scanFile_some_lt q0 ("other".data) (show featOf cGood = some q0 from rfl)
      (by rw [hsim]; norm_num)]
  have hstat : scanStatic q0 aliasStore1.staticDirs ((0 : ℝ), none) =
      (calculate_similarity q0 q0, some ("other".data)) := by
    show scanStatic q0 [⟨"other".data, [⟨"x".data, cGood⟩]⟩] ((0 : ℝ), none) = _
    rw [scanStatic, scanStatic]
    exact hfiles
  have hscan : identifyScan aliasStore1 q0 =
      ([(("foo".data : Str), q0)], calculate_similarity q0 q0, some ("other".data)) := by
    unfold identifyScan
    rw [hstat]
    show scanLearned q0 [⟨"foo_20250101_deadbeef".data, cGood⟩]
      ([(("foo".data : Str), q0)], calculate_similarity q0 q0, some ("other".data)) = _
    rw [scanLearned, scanLearned]
    rw [scanLearnedStep_hit_ge q0
      (show cacheLookup (learnedNameOf ("foo_20250101_deadbeef".data))
        [(("foo".data : Str), q0)] = some q0 from rfl)
      (lt_irrefl _)]
  have hq : extract_features pimg0 = q0 := rfl
  rw [hstore1, identify_plant_eq aliasStore1 ("orig.jpg".data) cGood pimg0 rfl rfl, hq, hscan]
  rw [if_pos (show similarityThreshold <
    (([(("foo".data : Str), q0)], calculate_similarity q0 q0, some ("other".data))).2.1 by
      show similarityThreshold < calculate_similarity q0 q0
      rw [hsim, similarityThreshold]
      norm_num)]
  exact ⟨rfl, rfl, rfl, by decide⟩

/-- C2 (amended): after a successful `learn(img, label)`, an immediate
`identify(img)` returns a Match with `plant_name` equal to the *normalized*
label and confidence `1 > 0.999`, provided the query file passes the PIL
validity check, the normalized label contains no underscore (otherwise the
reported name is its truncated prefix, see C8), and no other reference —
static file, cache entry under another label, or previously learned file
with another prefix — attains cosine similarity 1 with the query descriptor
(an aliased reference scanned first would keep the best-match name, see the
counterexample). -/
theorem c2_learn_then_identify_amended (store : Store) (path : Str)
    (c : ImgContent) (plantName ts : Str) (pimg : PImage)
    (hpix : c.pix = some pimg) (hpil : c.pilValid = true)
    (hs : (learn_plant store true path c plantName ts).1.success = true)
    (hu : '_' ∉ normalizeLabel plantName)
    (hstatic : ∀ d ∈ store.staticDirs, ∀ f ∈ d.files, ∀ ft,
      featOf f.content = some ft →
      calculate_similarity (extract_features pimg) ft < 1)
    (hcache : ∀ e ∈ store.cache, e.1 ≠ normalizeLabel plantName →
      calculate_similarity (extract_features pimg) e.2 < 1)
    (hlearned : ∀ f ∈ store.learned,
      learnedNameOf f.stem ≠ normalizeLabel plantName →
      ∀ ft, featOf f.content = some ft →
      calculate_similarity (extract_features pimg) ft < 1) :
    (identify_plant (learn_plant store true path c plantName ts).2
      true path c).1.success = true ∧
    (identify_plant (learn_plant store true path c plantName ts).2
      true path c).1.plant_name = some (normalizeLabel plantName) ∧
    ∃ conf, (identify_plant (learn_plant store true path c plantName ts).2
      true path c).1.confidence = some conf ∧ (0.999 : ℝ) < conf := by
  obtain ⟨hb, pimg', hpix', hst⟩ := learn_plant_success_spec store path c plantName ts hs
  have hpp : pimg' = pimg := by
    rw [hpix] at hpix'
    injection hpix' with h
    exact h.symm
  subst hpp
  obtain ⟨hH, hW⟩ := c.pix_size pimg' hpix
  have hq0 : 0 < normSqQ (extract_features pimg') :=
    extract_features_normSq_pos pimg' (by omega) (by omega)
  have hsim : calculate_similarity (extract_features pimg') (extract_features pimg') = 1 :=
    calculate_similarity_self (ne_of_gt hq0)
  have hpfx : learnedNameOf (normalizeLabel plantName ++ ['_'] ++ ts ++ ['_'] ++ c.hash8) =
      normalizeLabel plantName := by
    rw [learnedNameOf_stored_stem]
    exact takeWhile_underscore_eq_self hu
  have hstat1 : (scanStatic (extract_features pimg') store.staticDirs ((0 : ℝ), none)).1 < 1 :=
    scanStatic_lt_one hstatic (by norm_num)
  have hinv0 : ConvInv (extract_features pimg') (normalizeLabel plantName)
      (extract_features pimg')
      (cacheInsert (normalizeLabel plantName) (extract_features pimg') store.cache,
       scanStatic (extract_features pimg') store.staticDirs ((0 : ℝ), none)) := by
    refine ⟨cacheLookup_cacheInsert_self _ _ _, ?_, le_of_lt hstat1,
      fun h1 => absurd h1 (ne_of_lt hstat1)⟩
    intro e he hne
    rcases mem_cacheInsert he with rfl | he'
    · exact absurd rfl hne
    · exact hcache e he' hne
  have hinv1 := scanLearned_convInv hsim hlearned hinv0
  have hfin := scanLearnedStep_final
    (f := ⟨normalizeLabel plantName ++ ['_'] ++ ts ++ ['_'] ++ c.hash8, c⟩)
    hsim hpfx hinv1
  have hassemble : identifyScan (learn_plant store true path c plantName ts).2
      (extract_features pimg') =
      scanLearnedStep (extract_features pimg')
        (scanLearned (extract_features pimg') store.learned
          (cacheInsert (normalizeLabel plantName) (extract_features pimg') store.cache,
           scanStatic (extract_features pimg') store.staticDirs ((0 : ℝ), none)))
        ⟨normalizeLabel plantName ++ ['_'] ++ ts ++ ['_'] ++ c.hash8, c⟩ := by
    rw [hst]
    unfold identifyScan
    dsimp only
    rw [scanLearned_append]
    rw [scanLearned, scanLearned]
  have hv1 : (identifyScan (learn_plant store true path c plantName ts).2
      (extract_features pimg')).2.1 = 1 := by
    rw [hassemble]
    exact hfin.1
  have hv2 : (identifyScan (learn_plant store true path c plantName ts).2
      (extract_features pimg')).2.2 = some (normalizeLabel plantName) := by
    rw [hassemble]
    exact hfin.2
  rw [identify_plant_eq _ path c pimg' hpil hpix]
  rw [if_pos (show similarityThreshold <
      (identifyScan (learn_plant store true path c plantName ts).2
        (extract_features pimg')).2.1 by
    rw [hv1, similarityThreshold]
    norm_num)]
  refine ⟨rfl, hv2, ⟨round3 (identifyScan (learn_plant store true path c plantName ts).2
    (extract_features pimg')).2.1, rfl, ?_⟩⟩
  rw [hv1, round3_one]
  norm_num

theorem c2_learn_then_identify_amended_witness :
    cGood.pix = some pimg0 ∧ cGood.pilValid = true ∧
    (learn_plant emptyStore true ("orig.jpg".data) cGood ("foo".data)
      ("20250101".data)).1.success = true ∧
    ('_' ∉ normalizeLabel ("foo".data)) ∧
    ((identify_plant (learn_plant emptyStore true ("orig.jpg".data) cGood ("foo".data)
        ("20250101".data)).2 true ("orig.jpg".data) cGood).1.success = true ∧
     (identify_plant (learn_plant emptyStore true ("orig.jpg".data) cGood ("foo".data)
        ("20250101".data)).2 true ("orig.jpg".data) cGood).1.plant_name =
        some (normalizeLabel ("foo".data)) ∧
     ∃ conf, (identify_plant (learn_plant emptyStore true ("orig.jpg".data) cGood ("foo".data)
        ("20250101".data)).2 true ("orig.jpg".data) cGood).1.confidence = some conf ∧
        (0.999 : ℝ) < conf) :=
  ⟨rfl, rfl, rfl, by decide,
   c2_learn_then_identify_amended emptyStore ("orig.jpg".data) cGood ("foo".data)
     ("20250101".data) pimg0 rfl rfl rfl (by decide)
     (fun d hd => absurd hd (List.not_mem_nil d))
     (fun e he => absurd he (List.not_mem_nil e))
     (fun f hf => absurd hf (List.not_mem_nil f))⟩

end SmartFarm
